import Mathlib

/-!
Shallow embedding of `src/convert_tum_to_bf/tum_to_bf.py` (TUM RGB-D to
BundleFusion converter).  Timestamps and pose components are modelled as
exact rationals; Python's `float()` on the plain decimal numerals appearing
in TUM data is modelled by a decimal-string parser.  The Python string
primitives used by the script (`strip`, `startswith`, `endswith`, `lower`,
`split`, `rsplit`, `sorted`) are modelled by structurally recursive
functions on the character list of a `String`.  Fallible code returns
`Except String`/`Option`.
-/

namespace TumToBf

/-- Python `str.strip()`: drop whitespace from both ends. -/
def pyStrip (s : String) : String :=
  ⟨((s.data.dropWhile Char.isWhitespace).reverse.dropWhile Char.isWhitespace).reverse⟩

/-- Prefix test on character lists. -/
def startsWithCh : List Char → List Char → Bool
  | _, [] => true
  | [], _ :: _ => false
  | c :: cs, p :: ps => c = p && startsWithCh cs ps

/-- Python `s.startswith(p)`. -/
def pyStartsWith (s p : String) : Bool :=
  startsWithCh s.data p.data

/-- Python `s.endswith(p)`: the last `p.length` characters equal `p`. -/
def pyEndsWith (s p : String) : Bool :=
  s.data.drop (s.data.length - p.data.length) = p.data

/-- Python `str.lower()` (ASCII). -/
def pyLower (s : String) : String := ⟨s.data.map Char.toLower⟩

/-- Helper for `pySplit`: scan the characters, `cur` holding the reversed
pending token. -/
def wordsAux : List Char → List Char → List (List Char)
  | [], cur => if cur.isEmpty then [] else [cur.reverse]
  | c :: cs, cur =>
    if c.isWhitespace then
      if cur.isEmpty then wordsAux cs [] else cur.reverse :: wordsAux cs []
    else wordsAux cs (c :: cur)

/-- Python `str.split()` with no argument: split on whitespace runs,
discarding empty pieces. -/
def pySplit (s : String) : List String :=
  (wordsAux s.data []).map String.mk

/-- Split a character list at every dot, keeping empty pieces (as Python's
`split(".")` does); `cur` holds the reversed pending piece. -/
def splitDotAux : List Char → List Char → List (List Char)
  | [], cur => [cur.reverse]
  | c :: cs, cur =>
    if c = '.' then cur.reverse :: splitDotAux cs [] else splitDotAux cs (c :: cur)

/-- Rejoin dot-separated pieces (Python `".".join`). -/
def joinDots : List (List Char) → List Char
  | [] => []
  | [w] => w
  | w :: ws => w ++ '.' :: joinDots ws

/-- Python `f.rsplit(".", 1)[0]`: the filename with everything from the last dot
onwards removed (the whole name when it contains no dot). -/
def stemOf (s : String) : String :=
  let parts := splitDotAux s.data []
  if parts.length ≤ 1 then s else ⟨joinDots parts.dropLast⟩

/-- All-digit character list to its numeric value; `none` when empty or any
character is not a digit. -/
def parseDigits : List Char → Option Nat
  | [] => none
  | cs =>
    if cs.all Char.isDigit then
      some (cs.foldl (fun n c => 10 * n + (c.toNat - 48)) 0)
    else none

/-- Strip one optional leading sign, reporting whether it was a minus. -/
def splitSign : List Char → Bool × List Char
  | '-' :: r => (true, r)
  | '+' :: r => (false, r)
  | cs => (false, cs)

/-- Model of Python `float(s)` on the plain decimal numerals that occur as
TUM timestamps and pose components: optional sign, digits, at most one
decimal point.  Returns `none` on malformed input (where `float` raises
`ValueError`). -/
def parseDecimal (s : String) : Option Rat :=
  let (neg, body) := splitSign s.data
  let sgn : Rat → Rat := fun q => if neg then -q else q
  match splitDotAux body [] with
  | [w] => (parseDigits w).map (fun n => sgn n)
  | [w, f] =>
    if w.isEmpty && f.isEmpty then none
    else
      match (if w.isEmpty then some 0 else parseDigits w),
            (if f.isEmpty then some 0 else parseDigits f) with
      | some wn, some fn =>
        some (sgn ((wn : Rat) + (fn : Rat) / (10 : Rat) ^ f.length))
      | _, _ => none
  | _ => none

/-- A color or depth entry: `(timestamp, filename)` (lines 58-59). -/
abbrev ImgE := Rat × String

/-- A pose entry: `(timestamp, raw 7-component payload)` (line 72): the
payload tokens are kept as UNPARSED strings at load time. -/
abbrev PoseE := Rat × List String

/-- Error value for a token that `float()` rejects. -/
def tsError : String := "could not convert string to float"

/-- Error value for line 121's unpack of the 7 pose components. -/
def unpackError : String := "cannot unpack pose components"

/-- Sequential effectful map in the `Except` monad, stopping at the first
error (a Python loop in which an exception aborts everything). -/
def mapExcept (f : α → Except String β) : List α → Except String (List β)
  | [] => .ok []
  | a :: as =>
    match f a with
    | .error e => .error e
    | .ok b =>
      match mapExcept f as with
      | .error e => .error e
      | .ok bs => .ok (b :: bs)

/-- Sequential map in the `Option` monad. -/
def mapOpt (f : α → Option β) : List α → Option (List β)
  | [] => some []
  | a :: as =>
    match f a, mapOpt f as with
    | some b, some bs => some (b :: bs)
    | _, _ => none

/-- Success test for an `Except` value. -/
def isOkE : Except String α → Bool
  | .ok _ => true
  | .error _ => false

/-- The pose-log lines kept by the loader (lines 62-66).  Note the filter
tests `line.strip()` for nonemptiness but `line.startswith("#")` on the RAW
line; the kept value is the stripped line. -/
def keptLines (lines : List String) : List String :=
  (lines.filter (fun l => !(pyStrip l == "") && !(pyStartsWith l "#"))).map pyStrip

/-- Lines 68-72 for a single kept line: whitespace-split it, parse the FIRST
token with `float` (line 70) and keep the remaining tokens unparsed
(line 71).  Only the timestamp token can fail here. -/
def parsePoseLine (l : String) : Except String PoseE :=
  match pySplit l with
  | [] => .error tsError
  | t :: rest =>
    match parseDecimal t with
    | none => .error tsError
    | some ts => .ok (ts, rest)

/-- Lines 62-72: load the pose stream from the raw lines of
`groundtruth.txt`. -/
def loadPoses (lines : List String) : Except String (List PoseE) :=
  mapExcept parsePoseLine (keptLines lines)

/-- Bool test: does the kept line's first whitespace token parse as a
float?  (Exactly what `loadPoses` checks per line.) -/
def tsTokenOk (l : String) : Bool :=
  match pySplit l with
  | [] => false
  | t :: _ => (parseDecimal t).isSome

/-- Line 52-53's filename filter: `f.lower().endswith((".png", ".jpg"))`. -/
def isRgbFile (f : String) : Bool :=
  pyEndsWith (pyLower f) ".png" || pyEndsWith (pyLower f) ".jpg"

/-- Line 54-55's filename filter: `f.lower().endswith(".png")`. -/
def isDepthFile (f : String) : Bool :=
  pyEndsWith (pyLower f) ".png"

/-- Lexicographic order (non-strict) on character lists by code point —
Python's string comparison. -/
def lexLe : List Char → List Char → Bool
  | [], _ => true
  | _ :: _, [] => false
  | a :: as, b :: bs =>
    a.toNat < b.toNat || (a.toNat == b.toNat && lexLe as bs)

/-- Insert into a sorted list, after every element that compares at most
equal — so that repeatedly inserting the items of a list in order is a
STABLE sort, as Python's `sorted` is. -/
def insertS (x : String) : List String → List String
  | [] => [x]
  | y :: ys => if lexLe y.data x.data then y :: insertS x ys else x :: y :: ys

/-- Python `sorted` on strings: stable sort by lexicographic string order. -/
def pysorted (l : List String) : List String :=
  l.foldl (fun acc x => insertS x acc) []

/-- Lines 52-59: filter the directory listing by extension, sort the
filenames (as strings), and parse each stem with `float`; a stem that does
not parse is an uncaught error. -/
def loadEntries (keep : String → Bool) (names : List String) :
    Except String (List ImgE) :=
  mapExcept
    (fun f =>
      match parseDecimal (stemOf f) with
      | some ts => .ok (ts, f)
      | none => .error tsError)
    (pysorted (names.filter keep))

/-- The color entries (lines 52-53 and 58). -/
def rgbEntriesOf (names : List String) : Except String (List ImgE) :=
  loadEntries isRgbFile names

/-- The depth entries (lines 54-55 and 59). -/
def depthEntriesOf (names : List String) : Except String (List ImgE) :=
  loadEntries isDepthFile names

/-- Python `min(x :: xs, key=k)`: left fold keeping the FIRST element
attaining the minimum key (strict comparison). -/
def pymin (k : α → Rat) (x : α) (xs : List α) : α :=
  xs.foldl (fun best a => if k a < k best then a else best) x

/-- Python `list.remove(a)`: delete the first element equal to `a`. -/
def eraseFirst [DecidableEq α] (a : α) : List α → List α
  | [] => []
  | b :: bs => if b = a then bs else b :: eraseFirst a bs

/-- Number of occurrences of `a` in a list. -/
def countOcc [DecidableEq α] (a : α) : List α → Nat
  | [] => 0
  | b :: bs => (if b = a then 1 else 0) + countOcc a bs

/-- One produced output frame: the frame index together with the color,
depth and pose entries it consumed. -/
structure FrameMatch where
  frameIdx : Nat
  rgb : ImgE
  depth : ImgE
  pose : PoseE
deriving DecidableEq

/-- Outcome of one iteration of the matching loop body for one color
entry: `halt` models the loop exit, `skip` models `continue`, `matched`
carries the chosen depth and pose entries. -/
inductive StepRes where
  | halt : StepRes
  | skip : StepRes
  | matched : ImgE → PoseE → StepRes
deriving DecidableEq

/-- Lines 80-92, the loop body's decision for color entry `r` against the
current depth and pose pools: exit on an empty depth pool; find the
nearest depth entry and `continue` if it is farther than `margin`; only
then exit on an empty pose pool; find the nearest pose entry and
`continue` if it is farther than `margin`; otherwise match. -/
def stepOf (margin : Rat) (r : ImgE) (ds : List ImgE) (ps : List PoseE) :
    StepRes :=
  match ds with
  | [] => .halt
  | d :: ds' =>
    let cd := pymin (fun e => |r.1 - e.1|) d ds'
    if |r.1 - cd.1| > margin then .skip
    else
      match ps with
      | [] => .halt
      | p :: ps' =>
        let cp := pymin (fun e => |r.1 - e.1|) p ps'
        if |r.1 - cp.1| > margin then .skip
        else .matched cd cp

/-- Lines 74-99, the matching loop: walks the color entries in list order
with frame counter `n`, consuming matched depth/pose entries
(`list.remove`, lines 95-96) and incrementing the counter only on a match
(line 99).  Returns the produced matches together with the color entries
left UNVISITED when the loop exits early (`[]` when the loop runs to
completion). -/
def sync (margin : Rat) :
    List ImgE → List ImgE → List PoseE → Nat → List FrameMatch × List ImgE
  | [], _, _, _ => ([], [])
  | r :: rs, ds, ps, n =>
    match stepOf margin r ds ps with
    | .halt => ([], rs)
    | .skip => sync margin rs ds ps n
    | .matched cd cp =>
      let rest := sync margin rs (eraseFirst cd ds) (eraseFirst cp ps) (n + 1)
      (⟨n, r, cd, cp⟩ :: rest.1, rest.2)

/-- Zero-pad a numeral to at least 6 characters. -/
def pad6 (s : String) : String :=
  if 6 ≤ s.length then s else String.mk (List.replicate (6 - s.length) '0') ++ s

/-- Line 78: the frame identifier format with a zero-padded 6-digit
counter. -/
def frameId (n : Nat) : String := "frame-" ++ pad6 (toString n)

/-- Lines 112-115: the per-pixel depth conversion — cast to `uint16`, then
in-place integer division by 5. -/
def depthPixelConvert (v : Nat) : Nat := (v % 65536) / 5

/-- Line 121's unpack of the pose payload through `float` — succeeds only
when the payload has exactly 7 components, each parsing as a float;
otherwise an uncaught error AT MATCH TIME. -/
def unpackPose (data : List String) : Except String (List Rat) :=
  match mapOpt parseDecimal data with
  | none => .error unpackError
  | some qs => if qs.length = 7 then .ok qs else .error unpackError

/-- A scene directory's relevant on-disk content: whether the required
color/depth subdirectories and pose file all exist (lines 46-49), the two
directory listings, and the raw pose-log lines. -/
structure Scene where
  hasRequired : Bool
  rgbNames : List String
  depthNames : List String
  poseLines : List String

/-- The transcoding stage for the produced matches in order: each match's
pose payload is unpacked (line 121); the first failure aborts the scene
with an uncaught error. -/
def transcodeAll : List FrameMatch → Except String (List (FrameMatch × List Rat))
  | [] => .ok []
  | fm :: rest =>
    match unpackPose fm.pose.2 with
    | .error e => .error e
    | .ok q =>
      match transcodeAll rest with
      | .error e => .error e
      | .ok tail => .ok ((fm, q) :: tail)

/-- Model of `combine_and_rename_files` for one scene: early return (skip) when a
required input is missing, otherwise load the three streams, run the
matching loop from counter 0, and transcode each produced match.  Any
parse failure is an uncaught error that escapes the function. -/
def processScene (margin : Rat) (sc : Scene) :
    Except String (List (FrameMatch × List Rat)) :=
  if sc.hasRequired then
    match rgbEntriesOf sc.rgbNames with
    | .error e => .error e
    | .ok rgb =>
      match depthEntriesOf sc.depthNames with
      | .error e => .error e
      | .ok dep =>
        match loadPoses sc.poseLines with
        | .error e => .error e
        | .ok poses => transcodeAll (sync margin rgb dep poses 0).1
  else .ok []

/-- Lines 218-234, the batch loop of `main`: the scenes are processed in
order with NO exception handling around `combine_and_rename_files`, so an
error raised by any scene propagates and aborts the remainder of the
batch. -/
def mainRun (margin : Rat) (scenes : List Scene) :
    Except String (List (List (FrameMatch × List Rat))) :=
  mapExcept (processScene margin) scenes

/-- A scene whose pose log has a non-numeric timestamp token (a malformed
pose file), with otherwise perfectly matched streams. -/
def badScene : Scene :=
  ⟨true, ["1.0.png"], ["1.0.png"], ["abc 0 0 0 0 0 0 1"]⟩

/-- A fully valid scene: one color frame, one depth frame and one pose,
all at the same timestamp. -/
def goodScene : Scene :=
  ⟨true, ["1.0.png"], ["1.0.png"], ["1.0 0 0 0 0 0 0 1"]⟩


theorem pymin_mem (k : α → Rat) : ∀ (xs : List α) (x : α), pymin k x xs ∈ x :: xs
  | [], x => by simp [pymin]
  | a :: as, x => by
    have h := pymin_mem k as (if k a < k x then a else x)
    have e : pymin k x (a :: as) = pymin k (if k a < k x then a else x) as := rfl
    rw [e]
    by_cases hc : k a < k x <;> simp [hc] at h ⊢ <;> tauto

theorem countOcc_eraseFirst_add [DecidableEq α] {b : α} :
    ∀ {l : List α}, b ∈ l → ∀ a,
      (if b = a then 1 else 0) + countOcc a (eraseFirst b l) = countOcc a l := by
  intro l
  induction l with
  | nil => intro h; cases h
  | cons c cs ih =>
    intro hmem a
    by_cases hcb : c = b
    · subst hcb
      simp [eraseFirst, countOcc]
    · have hb : b ∈ cs := by
        rcases List.mem_cons.mp hmem with h | h
        · exact absurd h.symm hcb
        · exact h
      have := ih hb a
      simp only [eraseFirst, if_neg hcb, countOcc]
      omega

theorem stepOf_matched_mem {m : Rat} {r : ImgE} {ds : List ImgE} {ps : List PoseE}
    {cd : ImgE} {cp : PoseE} (h : stepOf m r ds ps = .matched cd cp) :
    cd ∈ ds ∧ cp ∈ ps := by
  cases ds with
  | nil => simp [stepOf] at h
  | cons d ds' =>
    simp only [stepOf] at h
    by_cases h1 : |r.1 - (pymin (fun e => |r.1 - e.1|) d ds').1| > m
    · simp [h1] at h
    · rw [if_neg h1] at h
      cases ps with
      | nil => simp at h
      | cons p ps' =>
        by_cases h2 : |r.1 - (pymin (fun e => |r.1 - e.1|) p ps').1| > m
        · simp [h2] at h
        · simp only [if_neg h2] at h
          have := h.symm
          injection this with e1 e2
          subst e1; subst e2
          exact ⟨pymin_mem _ ds' d, pymin_mem _ ps' p⟩

theorem sync_map_frameIdx (m : Rat) :
    ∀ (rgb ds : List ImgE) (ps : List PoseE) (n : Nat),
      (sync m rgb ds ps n).1.map FrameMatch.frameIdx =
        List.range' n (sync m rgb ds ps n).1.length := by
  intro rgb
  induction rgb with
  | nil => intro ds ps n; simp [sync]
  | cons r rs ih =>
    intro ds ps n
    cases h : stepOf m r ds ps with
    | halt => simp [sync, h]
    | skip => simpa [sync, h] using ih ds ps n
    | matched cd cp =>
      simp only [sync, h, List.map_cons, List.length_cons]
      rw [ih (eraseFirst cd ds) (eraseFirst cp ps) (n + 1)]
      simp [List.range']

theorem mapExcept_stem_ok_names :
    ∀ (l : List String) (es : List ImgE),
      mapExcept
        (fun f =>
          match parseDecimal (stemOf f) with
          | some ts => .ok (ts, f)
          | none => .error tsError) l = .ok es →
      es.map Prod.snd = l := by
  intro l
  induction l with
  | nil =>
    intro es h
    simp only [mapExcept] at h
    injection h with h
    simp [← h]
  | cons f fs ih =>
    intro es h
    simp only [mapExcept] at h
    cases hp : parseDecimal (stemOf f) with
    | none => rw [hp] at h; simp at h
    | some ts =>
      rw [hp] at h
      simp only at h
      cases hr : mapExcept
          (fun f =>
            match parseDecimal (stemOf f) with
            | some ts => .ok (ts, f)
            | none => .error tsError) fs with
      | error e => rw [hr] at h; simp at h
      | ok tail =>
        rw [hr] at h
        simp only at h
        injection h with h
        subst h
        simp [ih tail hr]

theorem parsePoseLine_isOk (l : String) : isOkE (parsePoseLine l) = tsTokenOk l := by
  simp only [parsePoseLine, tsTokenOk]
  cases pySplit l with
  | nil => simp [isOkE]
  | cons t rest =>
    cases h : parseDecimal t <;> simp [isOkE, h]

theorem mapExcept_poseLine_isOk :
    ∀ ks : List String,
      isOkE (mapExcept parsePoseLine ks) = true ↔ ∀ l ∈ ks, tsTokenOk l = true := by
  intro ks
  induction ks with
  | nil => simp [mapExcept, isOkE]
  | cons k ks ih =>
    simp only [mapExcept]
    cases hk : parsePoseLine k with
    | error e =>
      have : tsTokenOk k = false := by
        rw [← parsePoseLine_isOk, hk]; rfl
      simp [isOkE, this]
    | ok b =>
      have hkk : tsTokenOk k = true := by
        rw [← parsePoseLine_isOk, hk]; rfl
      cases hr : mapExcept parsePoseLine ks with
      | error e =>
        rw [hr] at ih
        simp only [isOkE] at ih ⊢
        simp [hkk, ← ih]
      | ok bs =>
        rw [hr] at ih
        simp only [isOkE] at ih ⊢
        simp [hkk, ← ih]

theorem mapOpt_isSome :
    ∀ (f : α → Option β) (l : List α),
      (mapOpt f l).isSome = true ↔ ∀ a ∈ l, (f a).isSome = true := by
  intro f l
  induction l with
  | nil => simp [mapOpt]
  | cons a as ih =>
    simp only [mapOpt]
    cases hf : f a with
    | none => simp [hf]
    | some b =>
      cases hr : mapOpt f as with
      | none => rw [hr] at ih; simp_all
      | some bs => rw [hr] at ih; simp_all

theorem mapOpt_length :
    ∀ (f : α → Option β) (l : List α) (bs : List β),
      mapOpt f l = some bs → bs.length = l.length := by
  intro f l
  induction l with
  | nil => intro bs h; simp only [mapOpt] at h; injection h with h; simp [← h]
  | cons a as ih =>
    intro bs h
    simp only [mapOpt] at h
    cases hf : f a with
    | none => rw [hf] at h; simp at h
    | some b =>
      rw [hf] at h
      cases hr : mapOpt f as with
      | none => rw [hr] at h; simp at h
      | some tail =>
        rw [hr] at h
        injection h with h
        subst h
        simp [ih tail hr]
/-- C1: Consumed-once — over the whole run of the matching loop, the number
of produced frames referencing a given depth entry (resp. pose entry) never
exceeds that entry's number of occurrences in the initial depth (resp. pose)
pool; in particular an entry listed once is referenced by at most one
produced frame, even when several color entries are within margin of it. -/
theorem consumed_once (m : Rat) (rgb ds : List ImgE) (ps : List PoseE) (n : Nat)
    (d : ImgE) (p : PoseE) :
    countOcc d ((sync m rgb ds ps n).1.map FrameMatch.depth) ≤ countOcc d ds ∧
    countOcc p ((sync m rgb ds ps n).1.map FrameMatch.pose) ≤ countOcc p ps := by
  induction rgb generalizing ds ps n with
  | nil => simp [sync, countOcc]
  | cons r rs ih =>
    cases h : stepOf m r ds ps with
    | halt => simp [sync, h, countOcc]
    | skip => simpa [sync, h] using ih ds ps n
    | matched cd cp =>
      obtain ⟨hcd, hcp⟩ := stepOf_matched_mem h
      have h1 := (ih (eraseFirst cd ds) (eraseFirst cp ps) (n + 1)).1
      have h2 := (ih (eraseFirst cd ds) (eraseFirst cp ps) (n + 1)).2
      have e1 := countOcc_eraseFirst_add hcd d
      have e2 := countOcc_eraseFirst_add hcp p
      constructor
      · simp only [sync, h, List.map_cons, countOcc]
        omega
      · simp only [sync, h, List.map_cons, countOcc]
        omega

/-- C2: No partial consumption — whenever the loop body skips a color entry
(nearest depth outside margin, or nearest pose outside margin after a depth
candidate was already found within margin), the run continues on the
remaining color entries with BOTH the depth and pose pools unchanged; in
particular a within-margin depth candidate is not removed when the pose
check fails and remains available for later color entries. -/
theorem skip_leaves_pools_unchanged (m : Rat) (r : ImgE) (rs ds : List ImgE)
    (ps : List PoseE) (n : Nat) (h : stepOf m r ds ps = .skip) :
    sync m (r :: rs) ds ps n = sync m rs ds ps n := by
  simp [sync, h]

/-- Witness for `skip_leaves_pools_unchanged`: the depth candidate at
distance 0 is within margin, the only pose is at distance 1 > 1/50, so the
entry is skipped and the pools are untouched. -/
theorem skip_leaves_pools_unchanged_witness :
    stepOf (1 / 50) (1, "a.png") [(1, "d.png")] [(2, ["0"])] = .skip ∧
    sync (1 / 50) [(1, "a.png")] [(1, "d.png")] [(2, ["0"])] 0 =
      sync (1 / 50) [] [(1, "d.png")] [(2, ["0"])] 0 :=
  ⟨by norm_num [stepOf, pymin],
    skip_leaves_pools_unchanged (1 / 50) (1, "a.png") [] [(1, "d.png")]
      [(2, ["0"])] 0 (by norm_num [stepOf, pymin])⟩

/-- C6: Tolerance boundary — with nonempty pools, the loop body matches the
nearest depth and pose candidates exactly when both absolute timestamp
differences are at most `margin` (so a difference equal to `margin` is
accepted: the boundary is inclusive at both checks), and it skips the color
entry exactly when the nearest depth candidate is strictly farther than
`margin`, or the depth candidate is within `margin` but the nearest pose
candidate is strictly farther. -/
theorem tolerance_boundary (m : Rat) (r d : ImgE) (ds : List ImgE)
    (p : PoseE) (ps : List PoseE) :
    (stepOf m r (d :: ds) (p :: ps) =
        .matched (pymin (fun e => |r.1 - e.1|) d ds)
          (pymin (fun e => |r.1 - e.1|) p ps) ↔
      |r.1 - (pymin (fun e => |r.1 - e.1|) d ds).1| ≤ m ∧
      |r.1 - (pymin (fun e => |r.1 - e.1|) p ps).1| ≤ m) ∧
    (stepOf m r (d :: ds) (p :: ps) = .skip ↔
      m < |r.1 - (pymin (fun e => |r.1 - e.1|) d ds).1| ∨
      (|r.1 - (pymin (fun e => |r.1 - e.1|) d ds).1| ≤ m ∧
        m < |r.1 - (pymin (fun e => |r.1 - e.1|) p ps).1|)) := by
  simp only [stepOf]
  by_cases h1 : m < |r.1 - (pymin (fun e => |r.1 - e.1|) d ds).1|
  · rw [if_pos h1]
    constructor
    · simp [h1, h1.not_le]
    · simp [h1]
  · rw [if_neg h1]
    by_cases h2 : m < |r.1 - (pymin (fun e => |r.1 - e.1|) p ps).1|
    · rw [if_pos h2]
      constructor
      · simp [h2.not_le]
      · simp [h1, h2, le_of_not_lt h1]
    · rw [if_neg h2]
      constructor
      · simp [le_of_not_lt h1, le_of_not_lt h2]
      · simp [h1, h2]

/-- C7: Frame index contiguity — starting from counter 0, the frame indices
of the produced matches are exactly 0, 1, ..., k-1 where k is the number of
produced matches (skipped color entries leave no gap), and each match's
artifacts are filed under the zero-padded 6-digit identifier of exactly that
index. -/
theorem frame_index_contiguous (m : Rat) (rgb ds : List ImgE) (ps : List PoseE) :
    (sync m rgb ds ps 0).1.map FrameMatch.frameIdx =
      List.range (sync m rgb ds ps 0).1.length ∧
    (sync m rgb ds ps 0).1.map (fun fm => frameId fm.frameIdx) =
      (List.range (sync m rgb ds ps 0).1.length).map frameId := by
  have h := sync_map_frameIdx m rgb ds ps 0
  rw [List.range_eq_range']
  refine ⟨h, ?_⟩
  have e : (sync m rgb ds ps 0).1.map (fun fm => frameId fm.frameIdx) =
      ((sync m rgb ds ps 0).1.map FrameMatch.frameIdx).map frameId := by
    simp [List.map_map, Function.comp]
  rw [e, h]

/-- C8: Depth unit conversion — every 16-bit source pixel value is mapped by
truncating integer division by 5; in particular 5000 maps to 1000 and 4999
to 999 (truncation, never rounding to nearest). -/
theorem depth_conversion_truncates (v : Nat) (h : v < 65536) :
    depthPixelConvert v = v / 5 ∧
    depthPixelConvert 5000 = 1000 ∧ depthPixelConvert 4999 = 999 := by
  refine ⟨?_, by decide, by decide⟩
  unfold depthPixelConvert
  rw [Nat.mod_eq_of_lt h]

/-- Witness for `depth_conversion_truncates` at the spec's own test value. -/
theorem depth_conversion_truncates_witness :
    4999 < 65536 ∧
    (depthPixelConvert 4999 = 4999 / 5 ∧
      depthPixelConvert 5000 = 1000 ∧ depthPixelConvert 4999 = 999) :=
  ⟨by decide, depth_conversion_truncates 4999 (by decide)⟩
theorem parseDecimal_eval {s : String} {c w f : List Char} {a b : Nat}
    (h1 : splitSign s.data = (false, c)) (h2 : splitDotAux c [] = [w, f])
    (h3 : parseDigits w = some a) (h4 : parseDigits f = some b)
    (h5 : w.isEmpty = false) :
    parseDecimal s = some ((a : Rat) + (b : Rat) / (10 : Rat) ^ f.length) := by
  have hfne : f.isEmpty = false := by
    cases f with
    | nil => simp [parseDigits] at h4
    | cons x xs => rfl
  simp only [parseDecimal, h1, h2, h5, hfne, Bool.and_false, Bool.false_and,
    if_neg (by simp : ¬ (false && false = true))]
  simp [h3, h4, h5]

theorem parseDecimal_eval_int {s : String} {c w : List Char} {a : Nat}
    (h1 : splitSign s.data = (false, c)) (h2 : splitDotAux c [] = [w])
    (h3 : parseDigits w = some a) :
    parseDecimal s = some ((a : Rat)) := by
  simp [parseDecimal, h1, h2, h3]

theorem parsePoseLine_error_of_bad {l : String} (h : tsTokenOk l = false) :
    parsePoseLine l = .error tsError := by
  simp only [parsePoseLine, tsTokenOk] at h ⊢
  cases hs : pySplit l with
  | nil => rfl
  | cons t rest =>
    rw [hs] at h
    dsimp only at h
    cases hp : parseDecimal t with
    | none => simp [hp]
    | some q => rw [hp] at h; simp at h

theorem lexLe_total : ∀ s t : List Char, lexLe s t = true ∨ lexLe t s = true
  | [], _ => Or.inl rfl
  | _ :: _, [] => Or.inr rfl
  | a :: as, b :: bs => by
    rcases Nat.lt_trichotomy a.toNat b.toNat with h | h | h
    · left; simp [lexLe, h]
    · rcases lexLe_total as bs with ih | ih
      · left; simp [lexLe, h, ih]
      · right; simp [lexLe, h.symm, ih]
    · right; simp [lexLe, h]

theorem lexLe_trans : ∀ {s t u : List Char},
    lexLe s t = true → lexLe t u = true → lexLe s u = true
  | [], _, _, _, _ => rfl
  | _ :: _, [], _, h, _ => by cases h
  | _ :: _, _ :: _, [], _, h => by cases h
  | a :: as, b :: bs, c :: cs, h1, h2 => by
    simp only [lexLe, Bool.or_eq_true, Bool.and_eq_true, decide_eq_true_eq,
      beq_iff_eq] at h1 h2 ⊢
    rcases h1 with h1 | ⟨e1, r1⟩ <;> rcases h2 with h2 | ⟨e2, r2⟩
    · exact Or.inl (by omega)
    · exact Or.inl (by omega)
    · exact Or.inl (by omega)
    · exact Or.inr ⟨by omega, lexLe_trans r1 r2⟩

theorem insertS_mem {x z : String} :
    ∀ {l : List String}, z ∈ insertS x l → z = x ∨ z ∈ l := by
  intro l
  induction l with
  | nil => intro h; simp [insertS] at h; exact Or.inl h
  | cons y ys ih =>
    intro h
    simp only [insertS] at h
    by_cases hc : lexLe y.data x.data = true
    · rw [if_pos hc] at h
      rcases List.mem_cons.mp h with h | h
      · exact Or.inr (by simp [h])
      · rcases ih h with h | h
        · exact Or.inl h
        · exact Or.inr (by simp [h])
    · rw [if_neg hc] at h
      rcases List.mem_cons.mp h with h | h
      · exact Or.inl h
      · exact Or.inr h

theorem insertS_pairwise {x : String} :
    ∀ {l : List String}, l.Pairwise (fun a b => lexLe a.data b.data = true) →
      (insertS x l).Pairwise (fun a b => lexLe a.data b.data = true) := by
  intro l
  induction l with
  | nil => intro _; simp [insertS]
  | cons y ys ih =>
    intro hp
    rcases List.pairwise_cons.mp hp with ⟨hy, hys⟩
    simp only [insertS]
    by_cases hc : lexLe y.data x.data = true
    · rw [if_pos hc]
      refine List.pairwise_cons.mpr ⟨?_, ih hys⟩
      intro z hz
      rcases insertS_mem hz with rfl | hzys
      · exact hc
      · exact hy z hzys
    · rw [if_neg hc]
      have hxy : lexLe x.data y.data = true := by
        rcases lexLe_total x.data y.data with h | h
        · exact h
        · exact absurd h hc
      refine List.pairwise_cons.mpr ⟨?_, hp⟩
      intro z hz
      rcases List.mem_cons.mp hz with rfl | hzys
      · exact hxy
      · exact lexLe_trans hxy (hy z hzys)

theorem pysorted_pairwise (l : List String) :
    (pysorted l).Pairwise (fun a b => lexLe a.data b.data = true) := by
  suffices h : ∀ (l1 acc : List String),
      acc.Pairwise (fun a b => lexLe a.data b.data = true) →
      (l1.foldl (fun acc x => insertS x acc) acc).Pairwise
        (fun a b => lexLe a.data b.data = true) by
    exact h l [] (by simp)
  intro l1
  induction l1 with
  | nil => intro acc h; simpa using h
  | cons x xs ih => intro acc h; exact ih _ (insertS_pairwise h)
/-- C9 counterexample: the claim asserts that when the pose pool is empty at
the moment a color entry is considered, processing terminates immediately
with no further color entries attempted.  On this input the pose pool is
empty at the first color entry, yet the loop body rejects the depth
candidate (distance 9 > 1/50) and issues `continue` BEFORE ever testing the
pose pool, so the second color entry IS attempted: the loop runs to
completion (unvisited remainder `[]`) instead of exiting at the first entry
(which would leave `[(2, "b.png")]` unvisited). -/
theorem stream_exhaustion_counterexample :
    sync (1 / 50) [(1, "a.png"), (2, "b.png")] [(10, "d.png")] [] 0 = ([], []) ∧
    (sync (1 / 50) [(1, "a.png"), (2, "b.png")] [(10, "d.png")] [] 0).2 ≠
      [(2, "b.png")] := by
  have h : sync (1 / 50) [(1, "a.png"), (2, "b.png")] [(10, "d.png")] [] 0 =
      ([], []) := by
    norm_num [sync, stepOf, pymin]
  exact ⟨h, by rw [h]; simp⟩

/-- C9 (amended): stream-exhaustion fail-fast — if the depth pool is empty
when a color entry is considered, the loop exits at once: no later color
entry is attempted (they are returned unvisited) and no further frames are
produced; the same holds for an empty pose pool PROVIDED the depth stage
accepted a candidate, for the loop body reaches the pose-pool emptiness
test (and can therefore exit) exactly when the nearest depth candidate is
within `margin`. -/
theorem stream_exhaustion_failfast (m : Rat) (r : ImgE) (rs ds : List ImgE)
    (ps : List PoseE) (n : Nat) :
    (sync m (r :: rs) [] ps n = ([], rs)) ∧
    (stepOf m r ds ps = .halt → sync m (r :: rs) ds ps n = ([], rs)) ∧
    (∀ d ds', stepOf m r (d :: ds') ps = .halt ↔
      (|r.1 - (pymin (fun e => |r.1 - e.1|) d ds').1| ≤ m ∧ ps = [])) := by
  refine ⟨by simp [sync, stepOf], fun h => by simp [sync, h], ?_⟩
  intro d ds'
  simp only [stepOf]
  by_cases h1 : m < |r.1 - (pymin (fun e => |r.1 - e.1|) d ds').1|
  · rw [if_pos h1]
    constructor
    · intro h; cases h
    · rintro ⟨hle, _⟩; exact absurd h1 hle.not_lt
  · rw [if_neg h1]
    cases ps with
    | nil => simp [le_of_not_lt h1]
    | cons p ps' =>
      by_cases h2 : m < |r.1 - (pymin (fun e => |r.1 - e.1|) p ps').1|
      · simp [if_pos h2]
      · simp [if_neg h2]

/-- Witness for `stream_exhaustion_failfast`: the depth candidate at
distance 0 is accepted, the pose pool is empty, so the loop exits and the
second color entry is left unvisited. -/
theorem stream_exhaustion_failfast_witness :
    stepOf (1 / 50) (1, "a.png") [(1, "d.png")] [] = .halt ∧
    sync (1 / 50) [(1, "a.png"), (2, "b.png")] [(1, "d.png")] [] 0 =
      ([], [(2, "b.png")]) :=
  ⟨by norm_num [stepOf, pymin],
   (stream_exhaustion_failfast (1 / 50) (1, "a.png") [(2, "b.png")]
       [(1, "d.png")] [] 0).2.1 (by norm_num [stepOf, pymin])⟩

/-- C5 counterexample: the loader sorts the directory listing as STRINGS,
so "10.5.png" precedes "9.5.png" and the constructed color entries carry
timestamps 21/2 before 19/2 — the entry with the SMALLER timestamp (19/2)
is considered second, refuting ascending-timestamp order for stems of
different digit counts. -/
theorem color_order_counterexample :
    rgbEntriesOf ["9.5.png", "10.5.png"] =
      .ok [((21 : Rat) / 2, "10.5.png"), ((19 : Rat) / 2, "9.5.png")] ∧
    ¬ ((21 : Rat) / 2 ≤ (19 : Rat) / 2) := by
  have h105 : parseDecimal "10.5" = some ((21 : Rat) / 2) := by
    have h := @parseDecimal_eval "10.5" ['1', '0', '.', '5'] ['1', '0'] ['5'] 10 5
      (by decide) (by decide) (by decide) (by decide) (by decide)
    rw [h]; norm_num
  have h95 : parseDecimal "9.5" = some ((19 : Rat) / 2) := by
    have h := @parseDecimal_eval "9.5" ['9', '.', '5'] ['9'] ['5'] 9 5
      (by decide) (by decide) (by decide) (by decide) (by decide)
    rw [h]; norm_num
  have hs1 : stemOf "10.5.png" = "10.5" := by decide
  have hs2 : stemOf "9.5.png" = "9.5" := by decide
  have hsort : pysorted (["9.5.png", "10.5.png"].filter isRgbFile) =
      ["10.5.png", "9.5.png"] := by decide
  constructor
  · simp only [rgbEntriesOf, loadEntries, hsort, mapExcept, hs1, hs2, h105, h95]
  · norm_num

/-- C5 (amended): the loader's construction sorts each stream by FILENAME
STRING (lexicographic by code point), not by numeric timestamp; the color
entries are produced in that filename order, which coincides with
ascending-timestamp order only when the two orders agree (e.g. equal-width
stems). -/
theorem color_order_is_filename_order (names : List String) (es : List ImgE)
    (h : rgbEntriesOf names = .ok es) :
    es.Pairwise (fun a b => lexLe a.2.data b.2.data = true) := by
  have h' : mapExcept
      (fun f =>
        match parseDecimal (stemOf f) with
        | some ts => Except.ok (ts, f)
        | none => Except.error tsError)
      (pysorted (names.filter isRgbFile)) = .ok es := h
  have hm := mapExcept_stem_ok_names _ _ h'
  have hp := pysorted_pairwise (names.filter isRgbFile)
  rw [← hm] at hp
  exact List.pairwise_map.mp hp

/-- Witness for `color_order_is_filename_order` on a two-file listing whose
string order is "10.png" before "2.png". -/
theorem color_order_is_filename_order_witness :
    rgbEntriesOf ["2.png", "10.png"] =
      .ok [((10 : Rat), "10.png"), ((2 : Rat), "2.png")] ∧
    List.Pairwise (fun (a b : ImgE) => lexLe a.2.data b.2.data = true)
      [((10 : Rat), "10.png"), ((2 : Rat), "2.png")] := by
  have h10 : parseDecimal "10" = some ((10 : Rat)) := by
    have h := @parseDecimal_eval_int "10" ['1', '0'] ['1', '0'] 10
      (by decide) (by decide) (by decide)
    rw [h]; norm_num
  have h2 : parseDecimal "2" = some ((2 : Rat)) := by
    have h := @parseDecimal_eval_int "2" ['2'] ['2'] 2
      (by decide) (by decide) (by decide)
    rw [h]; norm_num
  have hs1 : stemOf "10.png" = "10" := by decide
  have hs2 : stemOf "2.png" = "2" := by decide
  have hsort : pysorted (["2.png", "10.png"].filter isRgbFile) =
      ["10.png", "2.png"] := by decide
  have h : rgbEntriesOf ["2.png", "10.png"] =
      .ok [((10 : Rat), "10.png"), ((2 : Rat), "2.png")] := by
    simp only [rgbEntriesOf, loadEntries, hsort, mapExcept, hs1, hs2, h10, h2]
  exact ⟨h, color_order_is_filename_order _ _ h⟩
/-- C4 counterexample: a non-blank, non-comment pose line with only 3
tokens (not 8) LOADS SUCCESSFULLY — the loader parses only the timestamp
token and keeps the remaining tokens unchecked, so no parse error occurs at
load time for a wrong token count. -/
theorem pose_load_counterexample :
    loadPoses ["1.0 2.0 3.0"] = .ok [((1 : Rat), ["2.0", "3.0"])] := by
  have hk : keptLines ["1.0 2.0 3.0"] = ["1.0 2.0 3.0"] := by decide
  have hsp : pySplit "1.0 2.0 3.0" = ["1.0", "2.0", "3.0"] := by decide
  have h1 : parseDecimal "1.0" = some ((1 : Rat)) := by
    have h := @parseDecimal_eval "1.0" ['1', '.', '0'] ['1'] ['0'] 1 0
      (by decide) (by decide) (by decide) (by decide) (by decide)
    rw [h]; norm_num
  have hppl : parsePoseLine "1.0 2.0 3.0" = .ok ((1 : Rat), ["2.0", "3.0"]) := by
    simp only [parsePoseLine, hsp, h1]
  unfold loadPoses
  rw [hk]
  simp only [mapExcept, hppl]

/-- C4 (amended): loading the pose stream fails exactly when some kept line's
FIRST whitespace token does not parse as a float; the token count and the
numericness of the remaining pose components are not checked at load time —
they are checked only at match time, where unpacking a payload succeeds
exactly when it has exactly 7 components, each parsing as a float. -/
theorem pose_parse_error_characterization (lines : List String)
    (data : List String) :
    (isOkE (loadPoses lines) = true ↔ ∀ l ∈ keptLines lines, tsTokenOk l = true) ∧
    (isOkE (unpackPose data) = true ↔
      data.length = 7 ∧ ∀ s ∈ data, (parseDecimal s).isSome = true) := by
  constructor
  · exact mapExcept_poseLine_isOk (keptLines lines)
  · simp only [unpackPose]
    cases hm : mapOpt parseDecimal data with
    | none =>
      simp only [isOkE]
      constructor
      · intro h; cases h
      · rintro ⟨hlen, hall⟩
        have hs : (mapOpt parseDecimal data).isSome = true :=
          (mapOpt_isSome _ _).mpr hall
        rw [hm] at hs; cases hs
    | some qs =>
      have hlen := mapOpt_length _ _ _ hm
      have hall : ∀ s ∈ data, (parseDecimal s).isSome = true := by
        have hs : (mapOpt parseDecimal data).isSome = true := by
          rw [hm]; rfl
        exact (mapOpt_isSome _ _).mp hs
      dsimp only
      by_cases hq : qs.length = 7
      · rw [if_pos hq]
        simp only [isOkE, true_iff]
        exact ⟨by omega, hall⟩
      · rw [if_neg hq]
        simp only [isOkE, Bool.false_eq_true, false_iff]
        rintro ⟨hd, _⟩
        omega

/-- C10: the comment-marker test is applied to the RAW line — a line that
does not begin with the comment character is kept (stripped) even when its
first non-whitespace character is the comment character, and then loading
fails because its first token does not parse as a float; only lines whose
very first character is the comment marker, or lines that strip to empty,
are dropped. -/
theorem comment_marker_raw_line :
    (∀ l ls, pyStartsWith l "#" = false → pyStrip l ≠ "" →
      tsTokenOk (pyStrip l) = false → loadPoses (l :: ls) = .error tsError) ∧
    (∀ l ls, pyStartsWith l "#" = true → loadPoses (l :: ls) = loadPoses ls) ∧
    (∀ l ls, pyStrip l = "" → loadPoses (l :: ls) = loadPoses ls) := by
  refine ⟨?_, ?_, ?_⟩
  · intro l ls h1 h2 h3
    have hk : keptLines (l :: ls) = pyStrip l :: keptLines ls := by
      simp [keptLines, List.filter_cons, h1, h2]
    rw [loadPoses, hk]
    simp only [mapExcept, parsePoseLine_error_of_bad h3]
  · intro l ls h1
    have hk : keptLines (l :: ls) = keptLines ls := by
      simp [keptLines, List.filter_cons, h1]
    rw [loadPoses, hk, loadPoses]
  · intro l ls h1
    have hk : keptLines (l :: ls) = keptLines ls := by
      simp [keptLines, List.filter_cons, h1]
    rw [loadPoses, hk, loadPoses]

/-- Witness for `comment_marker_raw_line`: the line begins with whitespace
followed by the comment character, so it is NOT dropped, and loading fails
on its unparseable first token. -/
theorem comment_marker_raw_line_witness :
    pyStartsWith " # comment" "#" = false ∧ pyStrip " # comment" ≠ "" ∧
    tsTokenOk (pyStrip " # comment") = false ∧
    loadPoses [" # comment"] = .error tsError :=
  ⟨by decide, by decide, by decide,
   comment_marker_raw_line.1 " # comment" [] (by decide) (by decide) (by decide)⟩
/-- C3: a fatal parse error in one scene ABORTS the whole batch.  The valid
scene processes successfully on its own, but when the batch runs the
malformed scene first, the uncaught parse error propagates out of the
per-scene conversion through the batch loop, so the batch stops with that
error and the valid scene's output is never produced — the code contradicts
the documented propagation policy (scene isolation). -/
theorem batch_aborts_on_scene_parse_error :
    isOkE (processScene (1 / 50) goodScene) = true ∧
    mainRun (1 / 50) [badScene, goodScene] = .error tsError := by
  have h1 : parseDecimal "1.0" = some ((1 : Rat)) := by
    have h := @parseDecimal_eval "1.0" ['1', '.', '0'] ['1'] ['0'] 1 0
      (by decide) (by decide) (by decide) (by decide) (by decide)
    rw [h]; norm_num
  have h0 : parseDecimal "0" = some ((0 : Rat)) := by
    have h := @parseDecimal_eval_int "0" ['0'] ['0'] 0
      (by decide) (by decide) (by decide)
    rw [h]; norm_num
  have hone : parseDecimal "1" = some ((1 : Rat)) := by
    have h := @parseDecimal_eval_int "1" ['1'] ['1'] 1
      (by decide) (by decide) (by decide)
    rw [h]; norm_num
  have hs1 : stemOf "1.0.png" = "1.0" := by decide
  have hsortr : pysorted (["1.0.png"].filter isRgbFile) = ["1.0.png"] := by decide
  have hsortd : pysorted (["1.0.png"].filter isDepthFile) = ["1.0.png"] := by decide
  have hrgb : rgbEntriesOf ["1.0.png"] = .ok [((1 : Rat), "1.0.png")] := by
    simp only [rgbEntriesOf, loadEntries, hsortr, mapExcept, hs1, h1]
  have hdep : depthEntriesOf ["1.0.png"] = .ok [((1 : Rat), "1.0.png")] := by
    simp only [depthEntriesOf, loadEntries, hsortd, mapExcept, hs1, h1]
  have hgkept : keptLines ["1.0 0 0 0 0 0 0 1"] = ["1.0 0 0 0 0 0 0 1"] := by decide
  have hgsplit : pySplit "1.0 0 0 0 0 0 0 1" =
      ["1.0", "0", "0", "0", "0", "0", "0", "1"] := by decide
  have hgline : parsePoseLine "1.0 0 0 0 0 0 0 1" =
      .ok ((1 : Rat), ["0", "0", "0", "0", "0", "0", "1"]) := by
    simp only [parsePoseLine, hgsplit, h1]
  have hgposes : loadPoses ["1.0 0 0 0 0 0 0 1"] =
      .ok [((1 : Rat), ["0", "0", "0", "0", "0", "0", "1"])] := by
    unfold loadPoses
    rw [hgkept]
    simp only [mapExcept, hgline]
  have hbkept : keptLines ["abc 0 0 0 0 0 0 1"] = ["abc 0 0 0 0 0 0 1"] := by decide
  have hbbad : tsTokenOk "abc 0 0 0 0 0 0 1" = false := by decide
  have hbposes : loadPoses ["abc 0 0 0 0 0 0 1"] = .error tsError := by
    unfold loadPoses
    rw [hbkept]
    simp only [mapExcept, parsePoseLine_error_of_bad hbbad]
  have hsync : sync (1 / 50) [((1 : Rat), "1.0.png")] [((1 : Rat), "1.0.png")]
      [((1 : Rat), ["0", "0", "0", "0", "0", "0", "1"])] 0 =
      ([⟨0, ((1 : Rat), "1.0.png"), ((1 : Rat), "1.0.png"),
        ((1 : Rat), ["0", "0", "0", "0", "0", "0", "1"])⟩], []) := by
    norm_num [sync, stepOf, pymin, eraseFirst]
  have hunpack : unpackPose ["0", "0", "0", "0", "0", "0", "1"] =
      .ok [0, 0, 0, 0, 0, 0, 1] := by
    simp only [unpackPose, mapOpt, h0, hone]
    norm_num
  have hgood : processScene (1 / 50) goodScene =
      .ok [(⟨0, ((1 : Rat), "1.0.png"), ((1 : Rat), "1.0.png"),
        ((1 : Rat), ["0", "0", "0", "0", "0", "0", "1"])⟩,
        [0, 0, 0, 0, 0, 0, 1])] := by
    simp only [processScene, goodScene, if_pos, hrgb, hdep, hgposes, hsync,
      transcodeAll, hunpack]
  have hbad : processScene (1 / 50) badScene = .error tsError := by
    simp only [processScene, badScene, if_pos, hrgb, hdep, hbposes]
  constructor
  · rw [hgood]; rfl
  · simp only [mainRun, mapExcept, hbad]
end TumToBf
